import Mathlib

/-!
Shallow embedding of `src/event/source/macos.rs`: a `select(2)`-based
readiness multiplexer (`PosixSelect`) with per-direction registration maps.

Modelling conventions:
* `RawFd` (`libc::c_int`) is `Int`; `Token` (`mio::Token`, a `usize`) is `Nat`.
* `HashMap<RawFd, Token>` is an association list `List (RawFd × Token)`;
  `insertFd` replaces any existing binding, matching `HashMap::insert`.
* Fallible Rust functions returning `io::Result<()>` while mutating `self`
  become functions `State → Except IoErr Unit × State`.
* The `libc::select` call itself is abstracted by a `SelectOutcome` parameter:
  its return value `ret`, the `errno` that `io::Error::last_os_error()` would
  observe, and the post-call `FD_ISSET` predicates on the two descriptor sets.
* The `.unwrap()` panic inside the translation loops is modelled by `Option`:
  `select` returns `none` exactly when the Rust code would panic.
-/

set_option autoImplicit false

namespace CrosstermSelect

/-- Value of `libc::FD_SETSIZE` on macOS (and Linux): the fixed capacity of `fd_set`. -/
def FD_SETSIZE : Nat := 1024

/-- Model of `RawFd`, which is `libc::c_int`. -/
abbrev RawFd := Int

/-- Model of `mio::Token`, which wraps a `usize`. -/
abbrev Token := Nat

/-- Model of `mio::Interest`: which readiness directions a registration asks for. -/
structure Interest where
  readable : Bool
  writable : Bool
deriving DecidableEq, Repr

/-- The value `Interest::READABLE`. -/
def Interest.Readable : Interest := ⟨true, false⟩

/-- The value `Interest::WRITABLE`. -/
def Interest.Writable : Interest := ⟨false, true⟩

/-- The value `Interest::READABLE | Interest::WRITABLE`. -/
def Interest.Both : Interest := ⟨true, true⟩

/-- Model of `Interest::is_readable`. -/
def Interest.is_readable (i : Interest) : Bool := i.readable

/-- Model of `Interest::is_writable`. -/
def Interest.is_writable (i : Interest) : Bool := i.writable

/-- The model of `HashMap<RawFd, Token>`: an association list. -/
abbrev FdMap := List (RawFd × Token)

/-- Model of `HashMap::contains_key`. -/
def containsKey (m : FdMap) (fd : RawFd) : Bool :=
  m.any (fun p => p.1 == fd)

/-- Model of `HashMap::get`, returning the stored token if present. -/
def getToken (m : FdMap) (fd : RawFd) : Option Token :=
  (m.find? (fun p => p.1 == fd)).map (fun p => p.2)

/-- Model of `HashMap::insert`: replaces any existing binding for `fd`. -/
def insertFd (m : FdMap) (fd : RawFd) (t : Token) : FdMap :=
  m.filter (fun p => p.1 != fd) ++ [(fd, t)]

/-- Model of `HashMap::remove`. -/
def removeFd (m : FdMap) (fd : RawFd) : FdMap :=
  m.filter (fun p => p.1 != fd)

/-- The `PosixSelect` struct: the two per-direction registration maps. -/
structure PosixSelect where
  read_fds : FdMap
  write_fds : FdMap
deriving DecidableEq, Repr

/-- The `io::Error` kinds this module produces. `osError` carries the errno
observed by `io::Error::last_os_error()`. -/
inductive IoErr where
  | invalidInput
  | alreadyExists
  | osError (errno : Int)
deriving DecidableEq, Repr

instance : DecidableEq (Except IoErr Unit) := fun a b =>
  match a, b with
  | Except.ok (), Except.ok () => isTrue rfl
  | Except.error e, Except.error f =>
      if h : e = f then isTrue (by rw [h]) else isFalse (fun hh => h (by cases hh; rfl))
  | Except.ok _, Except.error _ => isFalse (fun h => Except.noConfusion h)
  | Except.error _, Except.ok _ => isFalse (fun h => Except.noConfusion h)

/-- Model of `PosixSelect::register` (macos.rs lines 180–206): capacity check, then the
per-direction duplicate check, then insertion into the requested maps. -/
def register (s : PosixSelect) (fd : RawFd) (token : Token) (interests : Interest) :
    Except IoErr Unit × PosixSelect :=
  if (FD_SETSIZE : Int) ≤ fd then
    (Except.error IoErr.invalidInput, s)
  else if interests.is_readable && containsKey s.read_fds fd
      || interests.is_writable && containsKey s.write_fds fd then
    (Except.error IoErr.alreadyExists, s)
  else
    (Except.ok (),
      { read_fds := if interests.is_readable then insertFd s.read_fds fd token else s.read_fds
        write_fds := if interests.is_writable then insertFd s.write_fds fd token else s.write_fds })

/-- Model of `PosixSelect::reregister` (macos.rs lines 208–218): no capacity check, no
duplicate check; unconditional insertion into the requested maps. -/
def reregister (s : PosixSelect) (fd : RawFd) (token : Token) (interests : Interest) :
    Except IoErr Unit × PosixSelect :=
  (Except.ok (),
    { read_fds := if interests.is_readable then insertFd s.read_fds fd token else s.read_fds
      write_fds := if interests.is_writable then insertFd s.write_fds fd token else s.write_fds })

/-- Model of `PosixSelect::deregister` (macos.rs lines 220–225): remove from both maps. -/
def deregister (s : PosixSelect) (fd : RawFd) : Except IoErr Unit × PosixSelect :=
  (Except.ok (), { read_fds := removeFd s.read_fds fd, write_fds := removeFd s.write_fds fd })

/-- The value of a `std::time::Duration` as the Rust code reads it:
`secs` is `as_secs()` (a `u64`), `nanos` is `subsec_nanos()` (a `u32`,
always below `10^9` for a genuine `Duration`). -/
structure Duration where
  secs : Nat
  nanos : Nat
deriving DecidableEq, Repr

/-- Model of `libc::timeval` (macOS: `tv_sec : i64`, `tv_usec : i32`). -/
structure Timeval where
  tv_sec : Int
  tv_usec : Int
deriving DecidableEq, Repr

/-- Value of `libc::time_t::max_value()` (`i64::MAX`). -/
def TIME_T_MAX : Nat := 2 ^ 63 - 1

/-- Rust's `as i32` cast applied to a `u32` value: two's-complement wrap. -/
def u32AsI32 (n : Nat) : Int :=
  if n % 2 ^ 32 < 2 ^ 31 then ((n % 2 ^ 32 : Nat) : Int)
  else ((n % 2 ^ 32 : Nat) : Int) - 2 ^ 32

/-- The timeout conversion at macos.rs lines 114–121: `None` stays a null
pointer, `Some(to)` becomes a `timeval` with
`tv_sec = min(to.as_secs(), time_t::MAX as u64) as time_t` and
`tv_usec = (to.subsec_nanos() / 1000) as i32`. The `min` keeps `tv_sec`
within `i64`, so the `u64 → i64` cast there is value-preserving. -/
def computeTimeout (timeout : Option Duration) : Option Timeval :=
  timeout.map (fun d =>
    { tv_sec := Int.ofNat (min d.secs TIME_T_MAX)
      tv_usec := u32AsI32 (d.nanos / 1000) })

/-- The set of descriptors a map's loop passes to `FD_SET`
(macos.rs lines 133–145): exactly the map's keys. -/
def fdSetOf (m : FdMap) : List RawFd :=
  m.map (fun p => p.1)

/-- The `nfds` computation (macos.rs lines 131–147): the largest key seen
while scanning `read_fds` then `write_fds`, starting from 0, plus one. -/
def nfdsOf (s : PosixSelect) : Int :=
  (s.write_fds.foldl (fun n p => if n < p.1 then p.1 else n)
    (s.read_fds.foldl (fun n p => if n < p.1 then p.1 else n) 0)) + 1

/-- Everything the code hands to the `libc::select` syscall
(macos.rs lines 114–149): the two `fd_set`s built by `FD_SET`, the `nfds`
bound, and the converted timeout (`none` = null pointer = block forever). -/
structure SyscallArgs where
  nfds : Int
  rfds : List RawFd
  wfds : List RawFd
  timeout : Option Timeval
deriving DecidableEq, Repr

/-- Assembles the arguments of the single `libc::select` call. -/
def selectArgs (s : PosixSelect) (timeout : Option Duration) : SyscallArgs :=
  { nfds := nfdsOf s
    rfds := fdSetOf s.read_fds
    wfds := fdSetOf s.write_fds
    timeout := computeTimeout timeout }

/-- Abstraction of one `libc::select` invocation's outcome: its return value,
the errno `last_os_error()` would see, and the post-call `FD_ISSET` tests on
the read and write sets. -/
structure SelectOutcome where
  ret : Int
  errno : Int
  rready : RawFd → Bool
  wready : RawFd → Bool

/-- The POSIX contract of `select(2)`: the return value is `-1` on failure and
otherwise the (non-negative) count of ready descriptors. -/
def SelectOutcome.Valid (o : SelectOutcome) : Prop :=
  o.ret = -1 ∨ 0 ≤ o.ret

/-- The `Event` struct: a (descriptor, token) pair. -/
structure Event where
  fd : RawFd
  token : Token
deriving DecidableEq, Repr

/-- Model of `Events = Vec<Event>`. -/
abbrev Events := List Event

/-- One translation loop of `select` (macos.rs lines 158–165 and 167–174):
iterate over `iter`'s entries; for each descriptor whose `FD_ISSET` test is
true, push an event carrying the token `lookup.get(&fd).unwrap()`. Both
loops in the source pass `self.read_fds` as the `get` target, so `lookup` is
the map the token is read from; `none` models the `unwrap` panic. -/
def pushReadyEvents (iter : FdMap) (lookup : FdMap) (ready : RawFd → Bool)
    (events : Events) : Option Events :=
  match iter with
  | [] => some events
  | (fd, _) :: rest =>
    if ready fd then
      match getToken lookup fd with
      | some t => pushReadyEvents rest lookup ready (events ++ [⟨fd, t⟩])
      | none => none
    else
      pushReadyEvents rest lookup ready events

/-- Model of `PosixSelect::select` (macos.rs lines 113–178) with the syscall outcome
abstracted as `o`. On `ret == -1` it returns `last_os_error()` with `events`
untouched; otherwise it clears `events` and, when `ret > 0`, runs the read
loop (tokens from `read_fds`) and then the write loop (tokens *also* from
`read_fds`, as the source does). `none` is the `unwrap` panic. -/
def select (s : PosixSelect) (events : Events) (timeout : Option Duration)
    (o : SelectOutcome) : Option (Except IoErr Unit × Events) :=
  let _args := selectArgs s timeout
  if o.ret = -1 then
    some (Except.error (IoErr.osError o.errno), events)
  else
    let cleared : Events := []
    if 0 < o.ret then
      match pushReadyEvents s.read_fds s.read_fds o.rready cleared with
      | none => none
      | some ev1 =>
        match pushReadyEvents s.write_fds s.read_fds o.wready ev1 with
        | none => none
        | some ev2 => some (Except.ok (), ev2)
    else
      some (Except.ok (), cleared)

/-- Runs `select` against a stream of available syscall outcomes: the call consumes
exactly the first one (there is a single `libc::select` call site, no loop and
no retry), returning the unconsumed remainder of the stream. -/
def selectStream (s : PosixSelect) (events : Events) (timeout : Option Duration)
    (outcomes : List SelectOutcome) :
    Option ((Except IoErr Unit × Events) × List SelectOutcome) :=
  match outcomes with
  | [] => none
  | o :: rest => (select s events timeout o).map (fun r => (r, rest))

/-! ### Helper lemmas about the map operations -/

theorem getToken_eq_none (m : FdMap) (fd : RawFd) (h : containsKey m fd = false) :
    getToken m fd = none := by
  simp only [containsKey, List.any_eq_false] at h
  unfold getToken
  rw [List.find?_eq_none.mpr h]
  rfl

theorem getToken_isSome_of_mem (m : FdMap) (p : RawFd × Token) (hp : p ∈ m) :
    (getToken m p.1).isSome = true := by
  simp only [getToken, Option.isSome_map']
  rw [List.find?_isSome]
  exact ⟨p, hp, by simp⟩

theorem contains_exists_mem (m : FdMap) (fd : RawFd) (h : containsKey m fd = true) :
    ∃ t, (fd, t) ∈ m := by
  simp only [containsKey, List.any_eq_true] at h
  obtain ⟨p, hp, hfd⟩ := h
  rw [beq_iff_eq] at hfd
  refine ⟨p.2, ?_⟩
  rw [← hfd, Prod.mk.eta]
  exact hp

theorem getToken_insertFd_self (m : FdMap) (fd : RawFd) (t : Token) :
    getToken (insertFd m fd t) fd = some t := by
  simp only [getToken, insertFd, List.find?_append]
  have h1 : List.find? (fun p => p.1 == fd) (m.filter (fun p => p.1 != fd)) = none := by
    rw [List.find?_eq_none]
    intro p hp
    rw [List.mem_filter] at hp
    simpa using hp.2
  rw [h1]
  simp [List.find?]

theorem insertFd_idem (m : FdMap) (fd : RawFd) (t : Token) :
    insertFd (insertFd m fd t) fd t = insertFd m fd t := by
  simp only [insertFd, List.filter_append, List.filter_filter]
  simp

theorem containsKey_insertFd_self (m : FdMap) (fd : RawFd) (t : Token) :
    containsKey (insertFd m fd t) fd = true := by
  simp [containsKey, insertFd]

theorem mem_fdSetOf_insertFd (m : FdMap) (fd : RawFd) (t : Token) :
    fd ∈ fdSetOf (insertFd m fd t) := by
  simp [fdSetOf, insertFd]

theorem containsKey_removeFd_self (m : FdMap) (fd : RawFd) :
    containsKey (removeFd m fd) fd = false := by
  simp [containsKey, removeFd, List.any_filter]

theorem removeFd_of_not_contains (m : FdMap) (fd : RawFd)
    (h : containsKey m fd = false) : removeFd m fd = m := by
  simp only [containsKey, List.any_eq_false] at h
  rw [removeFd, List.filter_eq_self]
  intro p hp
  simpa using h p hp

theorem find_cong {α : Type} (p q : α → Bool) (l : List α) (h : ∀ a ∈ l, p a = q a) :
    List.find? p l = List.find? q l := by
  induction l with
  | nil => rfl
  | cons hd tl ih =>
    have hhd := h hd (List.mem_cons_self hd tl)
    cases hq : q hd with
    | true =>
      rw [List.find?_cons_of_pos tl (hhd.trans hq), List.find?_cons_of_pos tl hq]
    | false =>
      rw [List.find?_cons_of_neg tl (by rw [hhd, hq]; exact Bool.false_ne_true),
        List.find?_cons_of_neg tl (by rw [hq]; exact Bool.false_ne_true)]
      exact ih (fun a ha => h a (List.mem_cons_of_mem hd ha))

theorem getToken_removeFd_ne (m : FdMap) (fd fd' : RawFd) (h : fd' ≠ fd) :
    getToken (removeFd m fd) fd' = getToken m fd' := by
  simp only [getToken, removeFd, List.find?_filter]
  congr 1
  apply find_cong
  intro a _
  by_cases ha : a.1 = fd'
  · simp [ha, h]
  · simp [ha]

theorem pushReady_isSome (iter lookup : FdMap) (ready : RawFd → Bool) (acc : Events)
    (h : ∀ p ∈ iter, (getToken lookup p.1).isSome = true) :
    ∃ ev, pushReadyEvents iter lookup ready acc = some ev := by
  induction iter generalizing acc with
  | nil => exact ⟨acc, rfl⟩
  | cons hd tl ih =>
    obtain ⟨fd, t⟩ := hd
    have hhd := h (fd, t) (List.mem_cons_self _ _)
    have htl : ∀ p ∈ tl, (getToken lookup p.1).isSome = true :=
      fun p hp => h p (List.mem_cons_of_mem _ hp)
    unfold pushReadyEvents
    by_cases hr : ready fd = true
    · obtain ⟨t', ht'⟩ := Option.isSome_iff_exists.mp hhd
      rw [if_pos hr, ht']
      exact ih (acc ++ [⟨fd, t'⟩]) htl
    · rw [if_neg hr]
      exact ih acc htl

theorem pushReady_none (iter lookup : FdMap) (ready : RawFd → Bool) (acc : Events)
    (fd : RawFd) (t : Token) (hmem : (fd, t) ∈ iter) (hready : ready fd = true)
    (hnone : getToken lookup fd = none) :
    pushReadyEvents iter lookup ready acc = none := by
  induction iter generalizing acc with
  | nil => cases hmem
  | cons hd tl ih =>
    obtain ⟨fd', t'⟩ := hd
    unfold pushReadyEvents
    rcases List.mem_cons.mp hmem with heq | hmem'
    · injection heq with h1 h2
      subst h1
      rw [if_pos hready, hnone]
    · by_cases hr : ready fd' = true
      · rw [if_pos hr]
        cases hg : getToken lookup fd' with
        | none => rfl
        | some t'' => exact ih (acc ++ [⟨fd', t''⟩]) hmem'
      · rw [if_neg hr]
        exact ih acc hmem'

/-! ### Claim theorems -/

/-- Claim C2: for a descriptor at or beyond `FD_SETSIZE`, `register` fails with
`InvalidInput` and returns the state unchanged (both maps untouched); the
embedding of `register` is purely in-memory, issuing no syscall. -/
theorem register_capacity_invalidInput (s : PosixSelect) (fd : RawFd) (t : Token)
    (i : Interest) (h : (FD_SETSIZE : Int) ≤ fd) :
    register s fd t i = (Except.error IoErr.invalidInput, s) := by
  unfold register
  rw [if_pos h]

theorem register_capacity_invalidInput_witness :
    (FD_SETSIZE : Int) ≤ 1024 ∧
    register ⟨[(3, 7)], []⟩ 1024 5 Interest.Readable =
      (Except.error IoErr.invalidInput, ⟨[(3, 7)], []⟩) :=
  ⟨by decide, register_capacity_invalidInput ⟨[(3, 7)], []⟩ 1024 5 Interest.Readable (by decide)⟩

/-- Claim C3 counterexample: with descriptor 1024 already present in the read map
(reachable, since `reregister` performs no capacity check), a `Readable`
`register` of 1024 fails with `InvalidInput`, not `AlreadyExists` — so
"fails with `AlreadyExists` iff the requested direction's map already holds
the descriptor" is false as stated: the condition holds but the error kind
differs. -/
theorem register_alreadyExists_iff_cex :
    ¬(((register ⟨[(1024, 1)], []⟩ 1024 5 Interest.Readable).1 =
        Except.error IoErr.alreadyExists) ↔
      (Interest.Readable.is_readable && containsKey ([(1024, 1)] : FdMap) 1024
        || Interest.Readable.is_writable && containsKey ([] : FdMap) 1024) = true) := by
  decide

/-- Claim C3 (amended): for descriptors below `FD_SETSIZE`, `register` fails with
`AlreadyExists` iff (Readable requested and the read map holds the fd) or
(Writable requested and the write map holds the fd); when that condition is
false the call succeeds (so read-only registration does not block a later
write-only registration); and any failing call leaves the state unchanged. -/
theorem register_alreadyExists_iff (s : PosixSelect) (fd : RawFd) (t : Token)
    (i : Interest) (h : fd < (FD_SETSIZE : Int)) :
    ((register s fd t i).1 = Except.error IoErr.alreadyExists ↔
      (i.is_readable && containsKey s.read_fds fd
        || i.is_writable && containsKey s.write_fds fd) = true) ∧
    ((i.is_readable && containsKey s.read_fds fd
        || i.is_writable && containsKey s.write_fds fd) = false →
      (register s fd t i).1 = Except.ok ()) ∧
    (∀ e, (register s fd t i).1 = Except.error e → (register s fd t i).2 = s) := by
  have hn : ¬((FD_SETSIZE : Int) ≤ fd) := fun hle => absurd h (not_lt.mpr hle)
  unfold register
  rw [if_neg hn]
  by_cases hc : (i.is_readable && containsKey s.read_fds fd
      || i.is_writable && containsKey s.write_fds fd) = true
  · rw [if_pos hc]
    refine ⟨by simp [hc], by simp [hc], fun e _ => rfl⟩
  · rw [if_neg hc]
    exact ⟨by simp [hc], fun _ => rfl, fun e he => absurd he (by simp)⟩

theorem register_alreadyExists_iff_witness :
    ((3 : Int) < (FD_SETSIZE : Int)) ∧
    ((register ⟨[(3, 1)], []⟩ 3 5 Interest.Readable).1 =
        Except.error IoErr.alreadyExists ↔
      (Interest.Readable.is_readable && containsKey ([(3, 1)] : FdMap) 3
        || Interest.Readable.is_writable && containsKey ([] : FdMap) 3) = true) :=
  ⟨by decide, (register_alreadyExists_iff ⟨[(3, 1)], []⟩ 3 5 Interest.Readable (by decide)).1⟩

/-- Claim C4: after a successful `register(fd, t1)` for a direction, `reregister
(fd, t2)` for that direction succeeds (no `AlreadyExists`), overwrites the
stored token from `t1` to `t2` in that direction's map, and repeating the
same `reregister` changes nothing further (idempotent); both directions
behave symmetrically. -/
theorem reregister_overwrites (s : PosixSelect) (fd : RawFd) (t1 t2 : Token)
    (s' : PosixSelect) :
    (register s fd t1 Interest.Readable = (Except.ok (), s') →
      getToken s'.read_fds fd = some t1 ∧
      (reregister s' fd t2 Interest.Readable).1 = Except.ok () ∧
      getToken (reregister s' fd t2 Interest.Readable).2.read_fds fd = some t2 ∧
      reregister (reregister s' fd t2 Interest.Readable).2 fd t2 Interest.Readable =
        reregister s' fd t2 Interest.Readable) ∧
    (register s fd t1 Interest.Writable = (Except.ok (), s') →
      getToken s'.write_fds fd = some t1 ∧
      (reregister s' fd t2 Interest.Writable).1 = Except.ok () ∧
      getToken (reregister s' fd t2 Interest.Writable).2.write_fds fd = some t2 ∧
      reregister (reregister s' fd t2 Interest.Writable).2 fd t2 Interest.Writable =
        reregister s' fd t2 Interest.Writable) := by
  constructor
  · intro h
    unfold register at h
    split at h
    · exact absurd (congrArg Prod.fst h) (by simp)
    · split at h
      · exact absurd (congrArg Prod.fst h) (by simp)
      · have hs' := congrArg Prod.snd h
        simp only at hs'
        refine ⟨?_, rfl, ?_, ?_⟩
        · rw [← hs']
          simp only [Interest.Readable, Interest.is_readable, if_pos rfl]
          exact getToken_insertFd_self s.read_fds fd t1
        · simp only [reregister, Interest.Readable, Interest.is_readable,
            Interest.is_writable, if_pos rfl]
          exact getToken_insertFd_self s'.read_fds fd t2
        · simp only [reregister, Interest.Readable, Interest.is_readable,
            Interest.is_writable]
          simp [insertFd_idem]
  · intro h
    unfold register at h
    split at h
    · exact absurd (congrArg Prod.fst h) (by simp)
    · split at h
      · exact absurd (congrArg Prod.fst h) (by simp)
      · have hs' := congrArg Prod.snd h
        simp only at hs'
        refine ⟨?_, rfl, ?_, ?_⟩
        · rw [← hs']
          simp only [Interest.Writable, Interest.is_writable, if_pos rfl]
          exact getToken_insertFd_self s.write_fds fd t1
        · simp only [reregister, Interest.Writable, Interest.is_readable,
            Interest.is_writable, if_pos rfl]
          exact getToken_insertFd_self s'.write_fds fd t2
        · simp only [reregister, Interest.Writable, Interest.is_readable,
            Interest.is_writable]
          simp [insertFd_idem]

theorem reregister_overwrites_witness :
    getToken ([(3, 1)] : FdMap) 3 = some 1 ∧
    (reregister ⟨[(3, 1)], []⟩ 3 2 Interest.Readable).1 = Except.ok () ∧
    getToken (reregister ⟨[(3, 1)], []⟩ 3 2 Interest.Readable).2.read_fds 3 = some 2 ∧
    reregister (reregister ⟨[(3, 1)], []⟩ 3 2 Interest.Readable).2 3 2 Interest.Readable =
      reregister ⟨[(3, 1)], []⟩ 3 2 Interest.Readable := by
  have h := (reregister_overwrites ⟨[], []⟩ 3 1 2 ⟨[(3, 1)], []⟩).1 (by decide)
  exact ⟨h.1, h.2.1, h.2.2.1, h.2.2.2⟩

/-- Claim C5: `deregister` always succeeds and removes the descriptor from both the
read map and the write map, leaving every other descriptor's entry in both
maps untouched; when the descriptor was never registered in either map the
state is returned exactly as it was (a no-op). -/
theorem deregister_removes_both (s : PosixSelect) (fd : RawFd) :
    (deregister s fd).1 = Except.ok () ∧
    containsKey (deregister s fd).2.read_fds fd = false ∧
    containsKey (deregister s fd).2.write_fds fd = false ∧
    (∀ fd', fd' ≠ fd →
      getToken (deregister s fd).2.read_fds fd' = getToken s.read_fds fd' ∧
      getToken (deregister s fd).2.write_fds fd' = getToken s.write_fds fd') ∧
    (containsKey s.read_fds fd = false → containsKey s.write_fds fd = false →
      (deregister s fd).2 = s) := by
  refine ⟨rfl, containsKey_removeFd_self s.read_fds fd,
    containsKey_removeFd_self s.write_fds fd, ?_, ?_⟩
  · intro fd' hne
    exact ⟨getToken_removeFd_ne s.read_fds fd fd' hne,
      getToken_removeFd_ne s.write_fds fd fd' hne⟩
  · intro hr hw
    show (⟨removeFd s.read_fds fd, removeFd s.write_fds fd⟩ : PosixSelect) = s
    rw [removeFd_of_not_contains s.read_fds fd hr,
      removeFd_of_not_contains s.write_fds fd hw]

theorem deregister_removes_both_witness :
    getToken (deregister ⟨[(3, 1)], [(4, 2)]⟩ 3).2.write_fds 4 =
      getToken ([(4, 2)] : FdMap) 4 ∧
    (deregister (⟨[], [(4, 2)]⟩ : PosixSelect) 3).2 = ⟨[], [(4, 2)]⟩ :=
  ⟨((deregister_removes_both ⟨[(3, 1)], [(4, 2)]⟩ 3).2.2.2.1 4 (by decide)).2,
    (deregister_removes_both ⟨[], [(4, 2)]⟩ 3).2.2.2.2 (by decide) (by decide)⟩

/-- Claim C6 counterexample: when the selection syscall fails (`ret = -1`), `select`
returns before reaching `events.clear()`, so the sink still holds the event
`(3, 5)` left over from a previous poll — the sink is *not* cleared at the
start of every call. -/
theorem select_error_keeps_stale_events :
    select ⟨[], []⟩ [⟨3, 5⟩] none ⟨-1, 7, fun _ => false, fun _ => false⟩ =
      some (Except.error (IoErr.osError 7), [⟨3, 5⟩]) ∧
    ([⟨3, 5⟩] : Events) ≠ ([] : Events) := by
  exact ⟨rfl, by decide⟩

/-- Claim C6 (amended): the event sink is cleared only after the selection syscall
returns non-negatively, before any new event is appended — so a successful
poll's output never depends on the sink's previous contents — but when the
syscall fails the sink is returned with its previous contents intact. -/
theorem select_clears_only_on_success (s : PosixSelect) (ev : Events)
    (timeout : Option Duration) (o : SelectOutcome) :
    (0 ≤ o.ret → select s ev timeout o = select s [] timeout o) ∧
    (o.ret = -1 →
      select s ev timeout o = some (Except.error (IoErr.osError o.errno), ev)) := by
  constructor
  · intro h
    have hne : ¬(o.ret = -1) := by omega
    unfold select
    rw [if_neg hne, if_neg hne]
  · intro h
    unfold select
    rw [if_pos h]

theorem select_clears_only_on_success_witness :
    select ⟨[], []⟩ [⟨3, 5⟩] none ⟨0, 0, fun _ => false, fun _ => false⟩ =
      select ⟨[], []⟩ [] none ⟨0, 0, fun _ => false, fun _ => false⟩ ∧
    select ⟨[], []⟩ [⟨3, 5⟩] none ⟨-1, 7, fun _ => false, fun _ => false⟩ =
      some (Except.error (IoErr.osError 7), [⟨3, 5⟩]) :=
  ⟨(select_clears_only_on_success ⟨[], []⟩ [⟨3, 5⟩] none
      ⟨0, 0, fun _ => false, fun _ => false⟩).1 (by decide),
    (select_clears_only_on_success ⟨[], []⟩ [⟨3, 5⟩] none
      ⟨-1, 7, fun _ => false, fun _ => false⟩).2 rfl⟩

/-- Claim C7: given the POSIX contract that a failing selection syscall returns
`-1`, a negative return makes `select` propagate the errno of
`last_os_error()` verbatim as an `osError`, leave the event sink exactly as
it was, and consume exactly one outcome from the stream of available syscall
outcomes (no retry: the rest of the stream is returned untouched). -/
theorem select_error_propagated_verbatim (s : PosixSelect) (ev : Events)
    (timeout : Option Duration) (o : SelectOutcome) (rest : List SelectOutcome)
    (hv : o.Valid) (h : o.ret < 0) :
    selectStream s ev timeout (o :: rest) =
      some ((Except.error (IoErr.osError o.errno), ev), rest) := by
  have h1 : o.ret = -1 := by
    rcases hv with h1 | h1
    · exact h1
    · omega
  show (select s ev timeout o).map (fun r => (r, rest)) =
    some ((Except.error (IoErr.osError o.errno), ev), rest)
  unfold select
  rw [if_pos h1]
  rfl

theorem select_error_propagated_verbatim_witness :
    selectStream ⟨[(3, 1)], []⟩ [⟨3, 1⟩] none
      [⟨-1, 9, fun _ => true, fun _ => true⟩, ⟨1, 0, fun _ => true, fun _ => true⟩] =
      some ((Except.error (IoErr.osError 9), [⟨3, 1⟩]),
        [⟨1, 0, fun _ => true, fun _ => true⟩]) :=
  select_error_propagated_verbatim ⟨[(3, 1)], []⟩ [⟨3, 1⟩] none
    ⟨-1, 9, fun _ => true, fun _ => true⟩ [⟨1, 0, fun _ => true, fun _ => true⟩]
    (Or.inl rfl) (by decide)

/-- Claim C8: a `none` timeout stays `none` (null `timeval` pointer: block
indefinitely); `some d` becomes a `timeval` whose seconds field is
`min(d.as_secs(), time_t::MAX)` and whose microseconds field is
`d.subsec_nanos() / 1000`. -/
theorem timeout_conversion (d : Duration) (h : d.nanos < 1000000000) :
    computeTimeout none = none ∧
    computeTimeout (some d) =
      some ⟨Int.ofNat (min d.secs TIME_T_MAX), Int.ofNat (d.nanos / 1000)⟩ := by
  refine ⟨rfl, ?_⟩
  have h32 : (2 : Nat) ^ 32 = 4294967296 := by norm_num
  have h31 : (2 : Nat) ^ 31 = 2147483648 := by norm_num
  have hq : d.nanos / 1000 % 2 ^ 32 < 2 ^ 31 := by
    rw [h32, h31, Nat.mod_eq_of_lt (by omega)]
    omega
  have hmod : d.nanos / 1000 % 2 ^ 32 = d.nanos / 1000 := by
    rw [h32]
    exact Nat.mod_eq_of_lt (by omega)
  show some (⟨Int.ofNat (min d.secs TIME_T_MAX), u32AsI32 (d.nanos / 1000)⟩ : Timeval) = _
  unfold u32AsI32
  rw [if_pos hq, hmod]
  rfl

theorem timeout_conversion_witness :
    computeTimeout none = none ∧
    computeTimeout (some ⟨5, 1500⟩) =
      some ⟨Int.ofNat (min 5 TIME_T_MAX), Int.ofNat (1500 / 1000)⟩ :=
  timeout_conversion ⟨5, 1500⟩ (by decide)

/-- Claim C9: when a descriptor is registered write-only (present in the write map,
absent from the read map) and the syscall reports it write-ready with a
positive return, the write translation loop's `read_fds.get(&fd).unwrap()`
finds nothing and panics — `select` evaluates to `none` instead of producing
an event. -/
theorem select_panics_on_write_only (s : PosixSelect) (ev : Events)
    (timeout : Option Duration) (o : SelectOutcome) (fd : RawFd)
    (hw : containsKey s.write_fds fd = true)
    (hr : containsKey s.read_fds fd = false)
    (hready : o.wready fd = true)
    (hret : 0 < o.ret) :
    select s ev timeout o = none := by
  have hne : ¬(o.ret = -1) := by omega
  obtain ⟨ev1, hev1⟩ := pushReady_isSome s.read_fds s.read_fds o.rready []
    (fun p hp => getToken_isSome_of_mem s.read_fds p hp)
  obtain ⟨t, hmem⟩ := contains_exists_mem s.write_fds fd hw
  have hnone := getToken_eq_none s.read_fds fd hr
  have hwr := pushReady_none s.write_fds s.read_fds o.wready ev1 fd t hmem hready hnone
  simp [select, hne, hret, hev1, hwr]

theorem select_panics_on_write_only_witness :
    select ⟨[], [(5, 9)]⟩ [] none ⟨1, 0, fun _ => false, fun fd => fd == 5⟩ = none :=
  select_panics_on_write_only ⟨[], [(5, 9)]⟩ [] none
    ⟨1, 0, fun _ => false, fun fd => fd == 5⟩ 5
    (by decide) (by decide) (by decide) (by decide)

/-- Claim C10: `reregister` performs no capacity check: for any descriptor at or
beyond `FD_SETSIZE` it returns success and inserts the descriptor into the
map(s) of the requested direction(s) — unlike `register`, which rejects the
same descriptor with `InvalidInput` — and a subsequent poll passes that
descriptor to `FD_SET` (it appears in the descriptor set handed to the
selection syscall). -/
theorem reregister_no_capacity_check (s : PosixSelect) (fd : RawFd) (t : Token)
    (i : Interest) (timeout : Option Duration) (h : (FD_SETSIZE : Int) ≤ fd) :
    (reregister s fd t i).1 = Except.ok () ∧
    (i.is_readable = true → containsKey (reregister s fd t i).2.read_fds fd = true) ∧
    (i.is_writable = true → containsKey (reregister s fd t i).2.write_fds fd = true) ∧
    (i.is_readable = true → fd ∈ (selectArgs (reregister s fd t i).2 timeout).rfds) ∧
    (i.is_writable = true → fd ∈ (selectArgs (reregister s fd t i).2 timeout).wfds) ∧
    (register s fd t i).1 = Except.error IoErr.invalidInput := by
  refine ⟨rfl, ?_, ?_, ?_, ?_, ?_⟩
  · intro hrd
    show containsKey (if i.is_readable then insertFd s.read_fds fd t else s.read_fds) fd = true
    rw [if_pos hrd]
    exact containsKey_insertFd_self s.read_fds fd t
  · intro hwr
    show containsKey (if i.is_writable then insertFd s.write_fds fd t else s.write_fds) fd = true
    rw [if_pos hwr]
    exact containsKey_insertFd_self s.write_fds fd t
  · intro hrd
    show fd ∈ fdSetOf (if i.is_readable then insertFd s.read_fds fd t else s.read_fds)
    rw [if_pos hrd]
    exact mem_fdSetOf_insertFd s.read_fds fd t
  · intro hwr
    show fd ∈ fdSetOf (if i.is_writable then insertFd s.write_fds fd t else s.write_fds)
    rw [if_pos hwr]
    exact mem_fdSetOf_insertFd s.write_fds fd t
  · show (register s fd t i).1 = Except.error IoErr.invalidInput
    unfold register
    rw [if_pos h]

theorem reregister_no_capacity_check_witness :
    (reregister ⟨[], []⟩ 2048 5 Interest.Both).1 = Except.ok () ∧
    containsKey (reregister ⟨[], []⟩ 2048 5 Interest.Both).2.read_fds 2048 = true ∧
    containsKey (reregister ⟨[], []⟩ 2048 5 Interest.Both).2.write_fds 2048 = true ∧
    2048 ∈ (selectArgs (reregister ⟨[], []⟩ 2048 5 Interest.Both).2 none).rfds ∧
    2048 ∈ (selectArgs (reregister ⟨[], []⟩ 2048 5 Interest.Both).2 none).wfds ∧
    (register ⟨[], []⟩ 2048 5 Interest.Both).1 = Except.error IoErr.invalidInput := by
  have h := reregister_no_capacity_check ⟨[], []⟩ 2048 5 Interest.Both none (by decide)
  exact ⟨h.1, h.2.1 rfl, h.2.2.1 rfl, h.2.2.2.1 rfl, h.2.2.2.2.1 rfl, h.2.2.2.2.2⟩

/-- Claim C1 (evaluation at the failing input): descriptor 3 is registered with
token 1 in the read map and token 2 in the write map, and the syscall reports
it write-ready only (`ret = 1`). The event `select` produces carries token 1,
taken from the read map, although the write map holds token 2 — the write
translation does not source its token from the write map as the spec
requires. -/
theorem select_write_token_from_read_map :
    select ⟨[(3, 1)], [(3, 2)]⟩ [] none ⟨1, 0, fun _ => false, fun fd => fd == 3⟩ =
      some (Except.ok (), [⟨3, 1⟩]) ∧
    getToken ([(3, 2)] : FdMap) 3 = some 2 := by
  decide

end CrosstermSelect
